import Mathlib

/-!
Shallow embedding of the weighted loot-rolling engine of the pixeldrop
repository.  JavaScript numbers are modelled as rationals (ℚ), integer
results of `Math.round` / `Math.floor` as ℤ, the `Math.random()` source as
an explicit rational parameter in `[0, 1)`, `null` as `Option.none`, thrown
errors as `Except.error`, and the mutable roll counter by explicit state
passing.
-/

namespace PixelDrop

/-- `POOL_BASE_WEIGHT` from the chest-aware hook. -/
def POOL_BASE_WEIGHT : ℚ := 10000

/-- `MAX_ROLL_COUNT` from the chest-aware hook. -/
def MAX_ROLL_COUNT : ℤ := 10

/-- `MAX_ROLL_COUNT` from the simple hook (`src/hooks/useLoot.tsx`). -/
def SIMPLE_MAX_ROLL_COUNT : ℤ := 16

/-- JavaScript `Math.round`: round half toward positive infinity. -/
def mathRound (x : ℚ) : ℤ := ⌊x + 1 / 2⌋

/-- `randomInt(min, max)` from `src/lib/math.ts`:
`Math.floor(rand * (Math.floor(max) - Math.ceil(min) + 1)) + Math.ceil(min)`
with `rand` the value of `Math.random()`. -/
def randomInt (lo hi : ℚ) (rand : ℚ) : ℤ :=
  ⌊rand * ((⌊hi⌋ : ℚ) - (⌈lo⌉ : ℚ) + 1)⌋ + ⌈lo⌉

/-- `toPercentage` from `src/App.tsx`:
`Number.parseFloat((value === 0 ? 0 : (value / total) * 100).toFixed(2))`. -/
def toPercentage (value total : ℚ) : ℚ :=
  if value = 0 then 0 else (mathRound (value / total * 100 * 100) : ℚ) / 100

/-- `LootEntry` from `src/assets/pools.ts`. -/
structure LootEntry where
  name : String
  weight : ℚ
deriving DecidableEq

/-- `LootPool` from `src/assets/pools.ts`. -/
structure LootPool where
  name : String
  entries : List LootEntry
deriving DecidableEq

/-- The `rarity` pool of `lootConfig` in `src/assets/pools.ts`. -/
def rarityPool : LootPool :=
  { name := "rarity"
    entries :=
      [ { name := "common", weight := 6000 }
      , { name := "uncommon", weight := 2500 }
      , { name := "rare", weight := 1000 }
      , { name := "epic", weight := 400 }
      , { name := "legendary", weight := 90 }
      , { name := "mythic", weight := 10 } ] }

/-- A one-entry pool used to exercise draws whose entries are all excluded
by a chest's exclusion set. -/
def commonOnlyPool : LootPool :=
  { name := "common-only", entries := [{ name := "common", weight := 100 }] }

/-- `ChestType` from the chest-aware hook. -/
inductive ChestType
  | normal
  | rare
  | epic
deriving DecidableEq

/-- The value type of the `CHEST_CONFIGS` record.  A JavaScript
`Record<string, number>` of weight overrides is modelled as an association
list. -/
structure ChestConfig where
  excludeRarities : List String
  maxRolls : ℤ
  weightOverrides : Option (List (String × ℚ)) := none
deriving DecidableEq

/-- `CHEST_CONFIGS` from the chest-aware hook. -/
def CHEST_CONFIGS : ChestType → ChestConfig
  | ChestType.normal => { excludeRarities := [], maxRolls := MAX_ROLL_COUNT }
  | ChestType.rare =>
      { excludeRarities := ["common", "uncommon"]
        maxRolls := 3
        weightOverrides :=
          some [("rare", 5500), ("epic", 3000), ("legendary", 1400), ("mythic", 100)] }
  | ChestType.epic =>
      { excludeRarities := ["common", "uncommon", "rare"]
        maxRolls := 2
        weightOverrides := some [("epic", 6500), ("legendary", 3200), ("mythic", 300)] }

/-- `RARE_PLUS_NAMES` from the chest-aware hook. -/
def RARE_PLUS_NAMES : List String := ["rare", "epic", "legendary", "mythic"]

/-- `entries.reduce((acc, e) => acc + e.weight, 0)`. -/
def entriesSum (entries : List LootEntry) : ℚ :=
  entries.foldl (fun acc e => acc + e.weight) 0

/-- `poolSum` of the hooks: sum of all weights of the pool. -/
def poolSum (pool : LootPool) : ℚ := entriesSum pool.entries

/-- The construction-time validation of both hooks: throw when
`poolSum > POOL_BASE_WEIGHT`. -/
def useLootInit (pool : LootPool) : Except String Unit :=
  if poolSum pool > POOL_BASE_WEIGHT then
    Except.error "Pool sum exceeds base weight"
  else
    Except.ok ()

/-- JavaScript record assignment `table[k] = v`: overwrite the value when
the key is present, otherwise append the pair. -/
def setKey (table : List (String × ℚ)) (k : String) (v : ℚ) : List (String × ℚ) :=
  if table.any (fun p => p.1 = k) then
    table.map (fun p => if p.1 = k then (p.1, v) else p)
  else
    table ++ [(k, v)]

/-- `getLootChances` of the chest-aware hook: fold over the entries filling
a record with `toPercentage(weight, poolSum)`. -/
def getLootChances (pool : LootPool) : List (String × ℚ) :=
  pool.entries.foldl
    (fun table e => setKey table e.name (toPercentage e.weight (poolSum pool))) []

/-- `getLootChances` of the simple hook (`src/hooks/useLoot.tsx`); its body
is the same fold as the chest-aware one. -/
def getLootChancesSimple (pool : LootPool) : List (String × ℚ) :=
  pool.entries.foldl
    (fun table e => setKey table e.name (toPercentage e.weight (poolSum pool))) []

/-- `pool.entries.filter((e) => !config.excludeRarities.includes(e.name))`. -/
def filteredEntries (pool : LootPool) (chestType : ChestType) : List LootEntry :=
  pool.entries.filter (fun e => !((CHEST_CONFIGS chestType).excludeRarities.contains e.name))

/-- Weight-override step of `getLoot`: when the chest defines overrides,
replace each entry weight by `config.weightOverrides![e.name] ?? e.weight`. -/
def overriddenEntries (config : ChestConfig) (entries : List LootEntry) : List LootEntry :=
  match config.weightOverrides with
  | some ov => entries.map (fun e => { e with weight := (ov.lookup e.name).getD e.weight })
  | none => entries

/-- Rarity-boost step of `getLoot`: when `rarityBoost > 1`, replace the
weight of every `RARE_PLUS_NAMES` entry by `Math.round(weight * rarityBoost)`. -/
def boostedEntries (rarityBoost : ℚ) (entries : List LootEntry) : List LootEntry :=
  if rarityBoost > 1 then
    entries.map (fun e =>
      { e with
        weight :=
          if RARE_PLUS_NAMES.contains e.name then (mathRound (e.weight * rarityBoost) : ℚ)
          else e.weight })
  else
    entries

/-- The filtered, overridden and boosted entry list a single draw walks. -/
def adjustedEntries (pool : LootPool) (chestType : ChestType) (rarityBoost : ℚ) :
    List LootEntry :=
  boostedEntries rarityBoost
    (overriddenEntries (CHEST_CONFIGS chestType) (filteredEntries pool chestType))

/-- The selection walk of `getLoot`:
`current += entry.weight; if (roll <= current) return entry.name`. -/
def selectEntry : List LootEntry → ℚ → ℚ → Option String
  | [], _, _ => none
  | e :: rest, roll, current =>
      if roll ≤ current + e.weight then some e.name
      else selectEntry rest roll (current + e.weight)

/-- `getLoot(chestType, rarityBoost)` of the chest-aware hook.  `rand` is
the value of `Math.random()`; `count` is the roll counter before the call,
and the returned counter is its value after the call. -/
def getLoot (pool : LootPool) (chestType : ChestType) (rarityBoost : ℚ) (rand : ℚ)
    (count : ℕ) : Option String × ℕ :=
  if pool.entries.length = 0 then (none, count)
  else if (filteredEntries pool chestType).length = 0 then (none, count)
  else
    let entries := adjustedEntries pool chestType rarityBoost
    let sum := entriesSum entries
    if sum = 0 then (none, count)
    else (selectEntry entries (rand * sum) 0, count + 1)

/-- `getLoot()` of the simple hook (`src/hooks/useLoot.tsx`). -/
def getLootSimple (pool : LootPool) (rand : ℚ) (count : ℕ) : Option String × ℕ :=
  if pool.entries.length = 0 then (none, count)
  else if poolSum pool = 0 then (none, count)
  else (selectEntry pool.entries (rand * poolSum pool) 0, count + 1)

/-- The `options` argument of `getLoots` with its defaults. -/
structure LootsOptions where
  max : Option ℤ := none
  chestType : ChestType := ChestType.normal
  multiplier : ℚ := 1
  rarityBoost : ℚ := 1

/-- `max ?? config.maxRolls`. -/
def resolvedMaxRolls (options : LootsOptions) : ℤ :=
  options.max.getD (CHEST_CONFIGS options.chestType).maxRolls

/-- The number of single draws a batch call schedules:
`Math.min(Math.round(baseCount * multiplier), maxRolls * 2)` with
`baseCount = randomInt(1, maxRolls)` drawn from `randBase`. -/
def plannedDraws (options : LootsOptions) (randBase : ℚ) : ℤ :=
  min (mathRound ((randomInt 1 (resolvedMaxRolls options : ℚ) randBase : ℚ) * options.multiplier))
    (resolvedMaxRolls options * 2)

/-- `n` consecutive `getLoot` draws, threading the roll counter; the `i`-th
draw consumes `rands i`. -/
def runDraws (pool : LootPool) (chestType : ChestType) (rarityBoost : ℚ) :
    (ℕ → ℚ) → ℕ → ℕ → List (Option String) × ℕ
  | _, count, 0 => ([], count)
  | rands, count, Nat.succ n =>
      let first := getLoot pool chestType rarityBoost (rands 0) count
      let rest := runDraws pool chestType rarityBoost (fun i => rands (i + 1)) first.2 n
      (first.1 :: rest.1, rest.2)

/-- `getLoots(options)` of the chest-aware hook.  `randBase` feeds the
`randomInt` call, `rands` feeds the individual draws.  A negative computed
array length makes `new Array(reroll)` throw a `RangeError`, modelled as
`Except.error`. -/
def getLoots (pool : LootPool) (options : LootsOptions) (randBase : ℚ) (rands : ℕ → ℚ)
    (count : ℕ) : Except String (List String × ℕ) :=
  if resolvedMaxRolls options ≤ 0 then Except.ok ([], count)
  else
    let reroll := plannedDraws options randBase
    if reroll < 0 then Except.error "RangeError: invalid array length"
    else
      let drawn := runDraws pool options.chestType options.rarityBoost rands count reroll.toNat
      Except.ok (drawn.1.filterMap id, drawn.2)

/-- A Loot Roller instance: the referenced pool plus the mutable
`totalRollsRef` counter. -/
structure RollerState where
  pool : LootPool
  totalRolls : ℕ
deriving DecidableEq

/-- `getLoot` acting on a roller instance. -/
def getLootS (s : RollerState) (chestType : ChestType) (rarityBoost : ℚ) (rand : ℚ) :
    Option String × RollerState :=
  let r := getLoot s.pool chestType rarityBoost rand s.totalRolls
  (r.1, { s with totalRolls := r.2 })

/-- `getLoots` acting on a roller instance; a thrown error leaves the
instance untouched. -/
def getLootsS (s : RollerState) (options : LootsOptions) (randBase : ℚ) (rands : ℕ → ℚ) :
    Except String (List String) × RollerState :=
  match getLoots s.pool options randBase rands s.totalRolls with
  | Except.ok (l, c) => (Except.ok l, { s with totalRolls := c })
  | Except.error e => (Except.error e, s)

/-- `getLootChances` acting on a roller instance. -/
def getLootChancesS (s : RollerState) : List (String × ℚ) × RollerState :=
  (getLootChances s.pool, s)

/-- `getRollCount` acting on a roller instance. -/
def getRollCountS (s : RollerState) : ℕ × RollerState :=
  (s.totalRolls, s)

/-- Spec-side rounding to two decimal places:
`round(x, 2 decimal places)`. -/
def roundTo2 (x : ℚ) : ℚ := (mathRound (x * 100) : ℚ) / 100

/-- Spec-side cumulative running totals of the entry weights, starting from
`current`. -/
def cumulativeTotals : List LootEntry → ℚ → List ℚ
  | [], _ => []
  | e :: rest, current => (current + e.weight) :: cumulativeTotals rest (current + e.weight)

/-- Spec-side selector: the first entry, in order, whose cumulative total is
greater than or equal to the drawn value. -/
def firstGE (entries : List LootEntry) (roll : ℚ) : Option String :=
  ((entries.zip (cumulativeTotals entries 0)).find? (fun p => decide (roll ≤ p.2))).map
    (fun p => p.1.name)

/-- Spec-side per-entry weight adjustment: first the chest override (entries
without an override keep their weight), then the rarity boost on
rare-or-above names when `rarityBoost > 1`. -/
def specAdjustWeight (chestType : ChestType) (rarityBoost : ℚ) (e : LootEntry) : ℚ :=
  let overridden :=
    match (CHEST_CONFIGS chestType).weightOverrides with
    | some ov => (ov.lookup e.name).getD e.weight
    | none => e.weight
  if rarityBoost > 1 ∧ RARE_PLUS_NAMES.contains e.name then
    (mathRound (overridden * rarityBoost) : ℚ)
  else overridden

/-! ### Helper lemmas -/

lemma entriesSum_shift (l : List LootEntry) (c : ℚ) :
    l.foldl (fun acc e => acc + e.weight) c = c + entriesSum l := by
  induction l generalizing c with
  | nil => simp [entriesSum]
  | cons e rest ih =>
      simp only [entriesSum, List.foldl_cons]
      rw [ih (c + e.weight), ih (0 + e.weight)]
      ring

lemma entriesSum_cons (e : LootEntry) (l : List LootEntry) :
    entriesSum (e :: l) = e.weight + entriesSum l := by
  have h : entriesSum (e :: l) = List.foldl (fun acc x => acc + x.weight) (0 + e.weight) l := by
    simp [entriesSum]
  rw [h, entriesSum_shift l (0 + e.weight)]
  ring

lemma entriesSum_nonneg {l : List LootEntry} (hw : ∀ e ∈ l, 0 ≤ e.weight) :
    0 ≤ entriesSum l := by
  induction l with
  | nil => simp [entriesSum]
  | cons e rest ih =>
      rw [entriesSum_cons]
      have h1 : 0 ≤ e.weight := hw e (List.mem_cons_self _ _)
      have h2 : 0 ≤ entriesSum rest := ih fun x hx => hw x (List.mem_cons_of_mem _ hx)
      linarith

lemma selectEntry_isSome (l : List LootEntry) (roll : ℚ) :
    ∀ c : ℚ, l ≠ [] → roll ≤ c + entriesSum l → (selectEntry l roll c).isSome = true := by
  induction l with
  | nil => intro _ hne _; exact absurd rfl hne
  | cons e rest ih =>
      intro c _ hle
      rw [selectEntry]
      by_cases h : roll ≤ c + e.weight
      · simp [h]
      · simp only [h, if_false]
        have hne2 : rest ≠ [] := by
          rintro rfl
          rw [entriesSum_cons] at hle
          simp [entriesSum] at hle
          exact h (by linarith)
        apply ih (c + e.weight) hne2
        rw [entriesSum_cons] at hle
        linarith

lemma selectEntry_mem {l : List LootEntry} {roll c : ℚ} {n : String}
    (h : selectEntry l roll c = some n) : n ∈ l.map (fun e => e.name) := by
  induction l generalizing c with
  | nil => simp [selectEntry] at h
  | cons e rest ih =>
      rw [selectEntry] at h
      by_cases hc : roll ≤ c + e.weight
      · simp only [hc, if_true, Option.some.injEq] at h
        simp [← h]
      · simp only [hc, if_false] at h
        simp [ih h]

lemma cumulativeTotals_length (l : List LootEntry) (c : ℚ) :
    (cumulativeTotals l c).length = l.length := by
  induction l generalizing c with
  | nil => simp [cumulativeTotals]
  | cons e rest ih => simp [cumulativeTotals, ih]

lemma selectEntry_eq_find (l : List LootEntry) (roll c : ℚ) :
    selectEntry l roll c
      = ((l.zip (cumulativeTotals l c)).find? (fun p => decide (roll ≤ p.2))).map
          (fun p => p.1.name) := by
  induction l generalizing c with
  | nil => simp [selectEntry, cumulativeTotals]
  | cons e rest ih =>
      rw [selectEntry, cumulativeTotals]
      by_cases h : roll ≤ c + e.weight
      · simp [List.find?_cons_of_pos, h]
      · rw [List.zip_cons_cons, List.find?_cons_of_neg _ (by simpa using h)]
        simp only [h, if_false]
        exact ih (c + e.weight)

lemma cumulativeTotals_get_ge (l : List LootEntry) (c : ℚ) (k : ℕ) (hk : k < l.length)
    (h2 : k < (cumulativeTotals l c).length) (hw : ∀ e ∈ l, 0 ≤ e.weight) :
    c + (l.get ⟨k, hk⟩).weight ≤ (cumulativeTotals l c).get ⟨k, h2⟩ := by
  induction l generalizing c k with
  | nil => simp at hk
  | cons e rest ih =>
      cases k with
      | zero => simp [cumulativeTotals]
      | succ k =>
          have hk' : k < rest.length := by simpa using hk
          have h2' : k < (cumulativeTotals rest (c + e.weight)).length := by
            rw [cumulativeTotals_length]; exact hk'
          have he : 0 ≤ e.weight := hw e (List.mem_cons_self _ _)
          have := ih (c + e.weight) k hk' h2'
            (fun x hx => hw x (List.mem_cons_of_mem _ hx))
          simp only [cumulativeTotals, List.get_cons_succ]
          calc c + (rest.get ⟨k, hk'⟩).weight
              ≤ (c + e.weight) + (rest.get ⟨k, hk'⟩).weight := by linarith
            _ ≤ (cumulativeTotals rest (c + e.weight)).get ⟨k, h2'⟩ := this

lemma selectEntry_boundary (l : List LootEntry) (c : ℚ) (k : ℕ) (hk : k < l.length)
    (h2 : k < (cumulativeTotals l c).length) (hw : ∀ e ∈ l, 0 ≤ e.weight)
    (hpos : 0 < (l.get ⟨k, hk⟩).weight) :
    selectEntry l ((cumulativeTotals l c).get ⟨k, h2⟩) c = some (l.get ⟨k, hk⟩).name := by
  induction l generalizing c k with
  | nil => simp at hk
  | cons e rest ih =>
      cases k with
      | zero =>
          simp [selectEntry, cumulativeTotals]
      | succ k =>
          have hk' : k < rest.length := by simpa using hk
          have h2' : k < (cumulativeTotals rest (c + e.weight)).length := by
            rw [cumulativeTotals_length]; exact hk'
          have hw' : ∀ x ∈ rest, 0 ≤ x.weight :=
            fun x hx => hw x (List.mem_cons_of_mem _ hx)
          have hge := cumulativeTotals_get_ge rest (c + e.weight) k hk' h2' hw'
          have hposk : 0 < (rest.get ⟨k, hk'⟩).weight := by simpa using hpos
          simp only [cumulativeTotals, List.get_cons_succ]
          rw [selectEntry]
          have hngt : ¬ ((cumulativeTotals rest (c + e.weight)).get ⟨k, h2'⟩ ≤ c + e.weight) := by
            push_neg
            calc c + e.weight
                < (c + e.weight) + (rest.get ⟨k, hk'⟩).weight := by linarith
              _ ≤ (cumulativeTotals rest (c + e.weight)).get ⟨k, h2'⟩ := hge
          simp only [hngt, if_false]
          exact ih (c + e.weight) k hk' h2' hw' hposk

lemma lookup_mem {l : List (String × ℚ)} {k : String} {v : ℚ} (h : l.lookup k = some v) :
    (k, v) ∈ l := by
  induction l with
  | nil => simp [List.lookup] at h
  | cons p rest ih =>
      rw [List.lookup] at h
      rcases p with ⟨a, b⟩
      by_cases hk : k == a
      · simp only [hk] at h
        have ha : k = a := eq_of_beq hk
        have hb : b = v := by simpa using h
        subst ha hb
        exact List.mem_cons_self _ _
      · simp only [Bool.not_eq_true] at hk
        rw [hk] at h
        exact List.mem_cons_of_mem _ (ih h)

lemma mathRound_nonneg {x : ℚ} (hx : 0 ≤ x) : 0 ≤ mathRound x := by
  rw [mathRound, Int.le_floor]
  push_cast
  linarith

lemma adjustedEntries_eq_map (pool : LootPool) (chestType : ChestType) (rarityBoost : ℚ) :
    adjustedEntries pool chestType rarityBoost
      = (filteredEntries pool chestType).map
          (fun e => { e with weight := specAdjustWeight chestType rarityBoost e }) := by
  rw [adjustedEntries, overriddenEntries, boostedEntries]
  cases hov : (CHEST_CONFIGS chestType).weightOverrides with
  | none =>
      by_cases hrb : rarityBoost > 1
      · simp only [hrb, if_true]
        apply List.map_congr_left
        intro e _
        by_cases hr : RARE_PLUS_NAMES.contains e.name
        · simp [specAdjustWeight, hov, hrb, hr]
        · simp [specAdjustWeight, hov, hrb, hr]
      · simp only [hrb, if_false]
        have : (fun e => { e with weight := specAdjustWeight chestType rarityBoost e })
            = fun e : LootEntry => e := by
          funext e
          simp [specAdjustWeight, hov, hrb]
        rw [this]
        exact (List.map_id _).symm
  | some ov =>
      by_cases hrb : rarityBoost > 1
      · simp only [hrb, if_true, List.map_map]
        apply List.map_congr_left
        intro e _
        by_cases hr : RARE_PLUS_NAMES.contains e.name
        · simp [Function.comp, specAdjustWeight, hov, hrb, hr]
        · simp [Function.comp, specAdjustWeight, hov, hrb, hr]
      · simp only [hrb, if_false]
        apply List.map_congr_left
        intro e _
        simp [specAdjustWeight, hov, hrb]

lemma adjustedEntries_names (pool : LootPool) (chestType : ChestType) (rarityBoost : ℚ) :
    (adjustedEntries pool chestType rarityBoost).map (fun e => e.name)
      = (filteredEntries pool chestType).map (fun e => e.name) := by
  rw [adjustedEntries_eq_map, List.map_map]
  rfl

lemma adjustedEntries_length (pool : LootPool) (chestType : ChestType) (rarityBoost : ℚ) :
    (adjustedEntries pool chestType rarityBoost).length
      = (filteredEntries pool chestType).length := by
  rw [adjustedEntries_eq_map, List.length_map]

lemma chestOverrides_nonneg (chestType : ChestType) (ov : List (String × ℚ))
    (hov : (CHEST_CONFIGS chestType).weightOverrides = some ov) :
    ∀ p ∈ ov, 0 ≤ p.2 := by
  cases chestType with
  | normal => simp [CHEST_CONFIGS] at hov
  | rare =>
      simp only [CHEST_CONFIGS, Option.some.injEq] at hov
      subst hov
      decide
  | epic =>
      simp only [CHEST_CONFIGS, Option.some.injEq] at hov
      subst hov
      decide

lemma specAdjustWeight_nonneg (chestType : ChestType) (rarityBoost : ℚ) (e : LootEntry)
    (he : 0 ≤ e.weight) : 0 ≤ specAdjustWeight chestType rarityBoost e := by
  simp only [specAdjustWeight]
  have hover : 0 ≤ (match (CHEST_CONFIGS chestType).weightOverrides with
      | some ov => (ov.lookup e.name).getD e.weight
      | none => e.weight) := by
    cases hov : (CHEST_CONFIGS chestType).weightOverrides with
    | none => simpa using he
    | some ov =>
        simp only
        cases hl : ov.lookup e.name with
        | none => simpa using he
        | some v =>
            simp only [Option.getD_some]
            exact chestOverrides_nonneg chestType ov hov (e.name, v) (lookup_mem hl)
  split_ifs with hb
  · have hrb : (0 : ℚ) ≤ rarityBoost := le_of_lt (lt_trans one_pos hb.1)
    exact_mod_cast mathRound_nonneg (mul_nonneg hover hrb)
  · exact hover

lemma adjustedEntries_nonneg {pool : LootPool} (chestType : ChestType) (rarityBoost : ℚ)
    (hw : ∀ e ∈ pool.entries, 0 ≤ e.weight) :
    ∀ e ∈ adjustedEntries pool chestType rarityBoost, 0 ≤ e.weight := by
  intro e he
  rw [adjustedEntries_eq_map] at he
  rcases List.mem_map.mp he with ⟨x, hx, rfl⟩
  have hxp : x ∈ pool.entries := (List.mem_filter.mp hx).1
  exact specAdjustWeight_nonneg chestType rarityBoost x (hw x hxp)

lemma filteredEntries_ne_nil_of_sum {pool : LootPool} {chestType : ChestType}
    {rarityBoost : ℚ} (h : entriesSum (adjustedEntries pool chestType rarityBoost) ≠ 0) :
    filteredEntries pool chestType ≠ [] := by
  intro hnil
  apply h
  have : adjustedEntries pool chestType rarityBoost = [] := by
    rw [adjustedEntries_eq_map, hnil, List.map_nil]
  rw [this]
  simp [entriesSum]

lemma getLoot_eq_of {pool : LootPool} {chestType : ChestType} {rarityBoost : ℚ}
    (rand : ℚ) (count : ℕ)
    (h1 : filteredEntries pool chestType ≠ [])
    (h2 : entriesSum (adjustedEntries pool chestType rarityBoost) ≠ 0) :
    getLoot pool chestType rarityBoost rand count
      = (selectEntry (adjustedEntries pool chestType rarityBoost)
          (rand * entriesSum (adjustedEntries pool chestType rarityBoost)) 0,
         count + 1) := by
  have hpe : pool.entries ≠ [] := by
    intro hnil
    apply h1
    rw [filteredEntries, hnil, List.filter_nil]
  rw [getLoot]
  simp only [List.length_eq_zero, hpe, if_false, h1, h2]

lemma getLoot_isSome {pool : LootPool} {chestType : ChestType} {rarityBoost : ℚ}
    {rand : ℚ} (count : ℕ) (_hw : ∀ e ∈ pool.entries, 0 ≤ e.weight)
    (_h0 : 0 ≤ rand) (h1 : rand < 1)
    (hS : 0 < entriesSum (adjustedEntries pool chestType rarityBoost)) :
    ((getLoot pool chestType rarityBoost rand count).1).isSome = true := by
  have hne : adjustedEntries pool chestType rarityBoost ≠ [] := by
    intro hnil
    rw [hnil] at hS
    simp [entriesSum] at hS
  have hfil : filteredEntries pool chestType ≠ [] :=
    filteredEntries_ne_nil_of_sum (ne_of_gt hS)
  rw [getLoot_eq_of rand count hfil (ne_of_gt hS)]
  apply selectEntry_isSome _ _ 0 hne
  have : rand * entriesSum (adjustedEntries pool chestType rarityBoost)
      < entriesSum (adjustedEntries pool chestType rarityBoost) := by
    nlinarith
  linarith

lemma setKey_of_not_mem {table : List (String × ℚ)} {k : String} (v : ℚ)
    (h : ∀ p ∈ table, p.1 ≠ k) : setKey table k v = table ++ [(k, v)] := by
  rw [setKey, if_neg]
  simp only [List.any_eq_true, decide_eq_true_eq, not_exists, not_and]
  intro p hp
  exact h p hp

lemma foldl_setKey (f : LootEntry → ℚ) (l : List LootEntry) :
    ∀ table : List (String × ℚ), (∀ e ∈ l, ∀ p ∈ table, p.1 ≠ e.name) →
      (l.map (fun e => e.name)).Nodup →
      l.foldl (fun t e => setKey t e.name (f e)) table
        = table ++ l.map (fun e => (e.name, f e)) := by
  induction l with
  | nil => intro table _ _; simp
  | cons e rest ih =>
      intro table hdisj hnd
      rw [List.foldl_cons, setKey_of_not_mem (f e) (fun p hp => hdisj e (List.mem_cons_self _ _) p hp)]
      have hcons : (∀ x ∈ rest, ¬ x.name = e.name) ∧ (rest.map (fun x => x.name)).Nodup := by
        simpa using hnd
      rw [ih (table ++ [(e.name, f e)])]
      · simp
      · intro x hx p hp
        rcases List.mem_append.mp hp with hp1 | hp2
        · exact hdisj x (List.mem_cons_of_mem _ hx) p hp1
        · have hpe : p = (e.name, f e) := by simpa using hp2
          subst hpe
          intro hcontra
          simp only at hcontra
          exact hcons.1 x hx hcontra.symm
      · exact hcons.2

lemma getLootChances_eq_map {pool : LootPool}
    (hnd : (pool.entries.map (fun e => e.name)).Nodup) :
    getLootChances pool
      = pool.entries.map (fun e => (e.name, toPercentage e.weight (poolSum pool))) := by
  rw [getLootChances]
  rw [foldl_setKey (fun e => toPercentage e.weight (poolSum pool)) pool.entries []
    (by intro e _ p hp; simp at hp) hnd]
  simp

lemma toPercentage_eq_roundTo2 (v t : ℚ) : toPercentage v t = roundTo2 (v / t * 100) := by
  rw [toPercentage, roundTo2]
  split_ifs with h
  · subst h
    norm_num [mathRound]
  · rfl

lemma runDraws_length (pool : LootPool) (chestType : ChestType) (rarityBoost : ℚ) :
    ∀ (rands : ℕ → ℚ) (count n : ℕ),
      ((runDraws pool chestType rarityBoost rands count n).1).length = n := by
  intro rands count n
  induction n generalizing rands count with
  | zero => rfl
  | succ n ih => simp [runDraws, ih]

lemma getLoot_count {pool : LootPool} {chestType : ChestType} {rarityBoost : ℚ}
    {rand : ℚ} (count : ℕ) (hw : ∀ e ∈ pool.entries, 0 ≤ e.weight)
    (h0 : 0 ≤ rand) (h1 : rand < 1) :
    (getLoot pool chestType rarityBoost rand count).2
      = count + (if ((getLoot pool chestType rarityBoost rand count).1).isSome then 1 else 0) := by
  by_cases hp : pool.entries.length = 0
  · simp [getLoot, hp]
  · by_cases hf : (filteredEntries pool chestType).length = 0
    · simp [getLoot, hp, hf]
    · by_cases hs : entriesSum (adjustedEntries pool chestType rarityBoost) = 0
      · simp only [getLoot, hp, if_false, hf, hs, if_true]
        simp
      · have hfne : filteredEntries pool chestType ≠ [] := by
          intro hc
          exact hf (by rw [hc]; rfl)
        have hSpos : 0 < entriesSum (adjustedEntries pool chestType rarityBoost) := by
          rcases lt_or_eq_of_le (entriesSum_nonneg (adjustedEntries_nonneg chestType rarityBoost hw)) with h | h
          · exact h
          · exact absurd h.symm hs
        have hsome := getLoot_isSome count hw h0 h1 hSpos
        rw [getLoot_eq_of rand count hfne hs] at hsome ⊢
        simp only at hsome
        simp [hsome]

lemma runDraws_count (pool : LootPool) (chestType : ChestType) (rarityBoost : ℚ)
    (hw : ∀ e ∈ pool.entries, 0 ≤ e.weight) :
    ∀ (rands : ℕ → ℚ), (∀ i, 0 ≤ rands i ∧ rands i < 1) → ∀ (count n : ℕ),
      (runDraws pool chestType rarityBoost rands count n).2
        = count + (((runDraws pool chestType rarityBoost rands count n).1).filterMap id).length := by
  intro rands hr count n
  induction n generalizing rands count with
  | zero => rfl
  | succ n ih =>
      have h0 := (hr 0).1
      have h1 := (hr 0).2
      have hfirst := @getLoot_count pool chestType rarityBoost (rands 0) count hw h0 h1
      have hrest := ih (fun i => rands (i + 1)) (fun i => hr (i + 1))
        (getLoot pool chestType rarityBoost (rands 0) count).2
      simp only [runDraws]
      rw [hrest]
      cases hres : (getLoot pool chestType rarityBoost (rands 0) count).1 with
      | none =>
          rw [hfirst, hres]
          simp
      | some a =>
          rw [hfirst, hres]
          simp [List.filterMap_cons]
          ring

lemma runDraws_one (pool : LootPool) (chestType : ChestType) (rarityBoost : ℚ)
    (rands : ℕ → ℚ) (count : ℕ) :
    runDraws pool chestType rarityBoost rands count 1
      = ([(getLoot pool chestType rarityBoost (rands 0) count).1],
         (getLoot pool chestType rarityBoost (rands 0) count).2) := rfl

lemma getLoots_ok_shape {pool : LootPool} {options : LootsOptions} {randBase : ℚ}
    {rands : ℕ → ℚ} {count : ℕ} {l : List String} {c2 : ℕ}
    (h : getLoots pool options randBase rands count = Except.ok (l, c2)) :
    (resolvedMaxRolls options ≤ 0 ∧ l = [] ∧ c2 = count)
    ∨ (0 < resolvedMaxRolls options ∧ 0 ≤ plannedDraws options randBase
        ∧ l = ((runDraws pool options.chestType options.rarityBoost rands count
                  (plannedDraws options randBase).toNat).1).filterMap id
        ∧ c2 = (runDraws pool options.chestType options.rarityBoost rands count
                  (plannedDraws options randBase).toNat).2) := by
  rw [getLoots] at h
  by_cases hm : resolvedMaxRolls options ≤ 0
  · left
    rw [if_pos hm] at h
    have hinj := Except.ok.inj h
    exact ⟨hm, (congrArg Prod.fst hinj).symm, (congrArg Prod.snd hinj).symm⟩
  · right
    rw [if_neg hm] at h
    by_cases hr : plannedDraws options randBase < 0
    · rw [if_pos hr] at h
      exact absurd h (by simp)
    · rw [if_neg hr] at h
      simp only at h
      have := Except.ok.inj h
      refine ⟨lt_of_not_le hm, le_of_not_lt hr, ?_, ?_⟩
      · exact (congrArg Prod.fst this).symm
      · exact (congrArg Prod.snd this).symm

lemma randomInt_one_int (m : ℤ) (r : ℚ) : randomInt 1 (m : ℚ) r = ⌊r * (m : ℚ)⌋ + 1 := by
  rw [randomInt, Int.ceil_one, Int.floor_intCast]
  norm_num

lemma randomInt_one_bounds (m : ℤ) (r : ℚ) (hm : 0 < m) (h0 : 0 ≤ r) (h1 : r < 1) :
    1 ≤ randomInt 1 (m : ℚ) r ∧ randomInt 1 (m : ℚ) r ≤ m := by
  rw [randomInt_one_int]
  constructor
  · have : (0 : ℤ) ≤ ⌊r * (m : ℚ)⌋ := by
      rw [Int.le_floor]
      push_cast
      positivity
    linarith
  · have : ⌊r * (m : ℚ)⌋ < m := by
      rw [Int.floor_lt]
      have hmq : (0 : ℚ) < (m : ℚ) := by exact_mod_cast hm
      nlinarith
    linarith

/-! ### Claim theorems -/

/-- C2: constructing a roller from a pool fails exactly when the sum of the
pool's entry weights exceeds the base weight 10000, and succeeds for every
pool whose weight sum is at most 10000. -/
theorem c2_construction_error_iff (pool : LootPool) :
    (useLootInit pool = Except.ok () ↔ poolSum pool ≤ POOL_BASE_WEIGHT)
    ∧ ((∃ msg, useLootInit pool = Except.error msg) ↔ POOL_BASE_WEIGHT < poolSum pool) := by
  rw [useLootInit]
  by_cases h : poolSum pool > POOL_BASE_WEIGHT
  · rw [if_pos h]
    constructor
    · constructor
      · intro hc
        exact absurd hc (by simp)
      · intro hle
        linarith
    · exact ⟨fun _ => h, fun _ => ⟨_, rfl⟩⟩
  · rw [if_neg h]
    push_neg at h
    constructor
    · exact ⟨fun _ => h, fun _ => rfl⟩
    · constructor
      · rintro ⟨msg, hmsg⟩
        exact absurd hmsg (by simp)
      · intro hlt
        linarith

/-- C7: in a single draw the weight adjustment first replaces each eligible
entry's weight by its chest override when one exists (others keep their
weight), and then, when rarityBoost > 1, multiplies the weight of every
rare-or-above entry by rarityBoost rounded to the nearest integer, leaving
all other entries unchanged. -/
theorem c7_adjustment_order (pool : LootPool) (chestType : ChestType) (rarityBoost : ℚ) :
    adjustedEntries pool chestType rarityBoost
      = (filteredEntries pool chestType).map
          (fun e => { e with weight := specAdjustWeight chestType rarityBoost e }) :=
  adjustedEntries_eq_map pool chestType rarityBoost

/-- C9: no roller operation mutates the pool or the chest configuration
tables; each operation's resulting state keeps the constructed pool and can
differ from the initial state only in the roll counter. -/
theorem c9_frame_no_mutation (s : RollerState) (chestType : ChestType)
    (rarityBoost rand : ℚ) (options : LootsOptions) (randBase : ℚ) (rands : ℕ → ℚ) :
    (getLootS s chestType rarityBoost rand).2.pool = s.pool
    ∧ (getLootS s chestType rarityBoost rand).2
        = { pool := s.pool, totalRolls := (getLootS s chestType rarityBoost rand).2.totalRolls }
    ∧ (getLootsS s options randBase rands).2.pool = s.pool
    ∧ (getLootsS s options randBase rands).2
        = { pool := s.pool, totalRolls := (getLootsS s options randBase rands).2.totalRolls }
    ∧ (getLootChancesS s).2 = s
    ∧ (getLootChancesS s).1 = getLootChances s.pool
    ∧ (getRollCountS s).2 = s := by
  refine ⟨rfl, rfl, ?_, ?_, rfl, rfl, rfl⟩ <;>
    rcases hg : getLoots s.pool options randBase rands s.totalRolls with e | ⟨l, c⟩ <;>
      rw [getLootsS, hg]

/-- C10: the simple implementation's getLoot agrees with the chest-aware
implementation's getLoot("normal", 1) for the same pool and the same
underlying random value, and the two getLootChances functions coincide on
every pool. -/
theorem c10_implementations_agree (pool : LootPool) (rand : ℚ) (count : ℕ) :
    getLootSimple pool rand count = getLoot pool ChestType.normal 1 rand count
    ∧ getLootChancesSimple pool = getLootChances pool := by
  constructor
  · have hfil : filteredEntries pool ChestType.normal = pool.entries := by
      simp [filteredEntries, CHEST_CONFIGS]
    have hadj : adjustedEntries pool ChestType.normal 1 = pool.entries := by
      rw [adjustedEntries, hfil]
      simp [overriddenEntries, CHEST_CONFIGS, boostedEntries]
    by_cases hp : pool.entries.length = 0
    · simp [getLootSimple, getLoot, hp]
    · by_cases hs : entriesSum pool.entries = 0
      · simp [getLootSimple, getLoot, hfil, hadj, hp, hs, poolSum]
      · simp [getLootSimple, getLoot, hfil, hadj, hp, hs, poolSum]
  · rfl

/-- C3: getLootChances maps every entry of the unfiltered base pool to
round(weight / poolSum * 100, 2 decimals) as a function of the base pool
alone, returns the empty mapping on an entry-less pool, and on the standard
rarity pool yields common=60, uncommon=25, rare=10, epic=4, legendary=0.90,
mythic=0.10. -/
theorem c3_chances_formula (pool : LootPool)
    (hnd : (pool.entries.map (fun e => e.name)).Nodup)
    (_hS : poolSum pool ≠ 0 ∨ pool.entries = []) :
    getLootChances pool
        = pool.entries.map (fun e => (e.name, roundTo2 (e.weight / poolSum pool * 100)))
    ∧ getLootChances { name := pool.name, entries := [] } = []
    ∧ getLootChances rarityPool
        = [("common", 60), ("uncommon", 25), ("rare", 10), ("epic", 4),
           ("legendary", 9 / 10), ("mythic", 1 / 10)] := by
  refine ⟨?_, rfl, ?_⟩
  · rw [getLootChances_eq_map hnd]
    apply List.map_congr_left
    intro e _
    rw [toPercentage_eq_roundTo2]
  · simp [getLootChances, rarityPool, poolSum, entriesSum, setKey, toPercentage, mathRound]
    norm_num

/-- Witness for C3 at the standard rarity pool. -/
theorem c3_witness :
    poolSum rarityPool ≠ 0
    ∧ getLootChances rarityPool
        = rarityPool.entries.map
            (fun e => (e.name, roundTo2 (e.weight / poolSum rarityPool * 100))) :=
  ⟨by norm_num [poolSum, entriesSum, rarityPool],
    (c3_chances_formula rarityPool (by decide)
      (Or.inl (by norm_num [poolSum, entriesSum, rarityPool]))).1⟩

/-- C1: for a pool whose filtered and reweighted entries have positive total
weight, a single draw with random value in [0, 1) returns the first eligible
entry, in order, whose cumulative weight is greater than or equal to the
drawn value rand * localSum; some eligible entry is always returned; and a
drawn value landing exactly on the cumulative boundary of a positive-weight
entry resolves to that (earlier) entry. -/
theorem c1_weighted_selection (pool : LootPool) (chestType : ChestType)
    (rarityBoost rand : ℚ) (count : ℕ) (k : ℕ)
    (hw : ∀ e ∈ pool.entries, 0 ≤ e.weight)
    (hS : 0 < entriesSum (adjustedEntries pool chestType rarityBoost))
    (h0 : 0 ≤ rand) (h1 : rand < 1)
    (hk : k < (adjustedEntries pool chestType rarityBoost).length)
    (hwk : 0 < ((adjustedEntries pool chestType rarityBoost).get ⟨k, hk⟩).weight) :
    (getLoot pool chestType rarityBoost rand count).1
        = firstGE (adjustedEntries pool chestType rarityBoost)
            (rand * entriesSum (adjustedEntries pool chestType rarityBoost))
    ∧ ((getLoot pool chestType rarityBoost rand count).1).isSome = true
    ∧ firstGE (adjustedEntries pool chestType rarityBoost)
        ((cumulativeTotals (adjustedEntries pool chestType rarityBoost) 0).get
          ⟨k, by rw [cumulativeTotals_length]; exact hk⟩)
        = some ((adjustedEntries pool chestType rarityBoost).get ⟨k, hk⟩).name := by
  have hfil := filteredEntries_ne_nil_of_sum (ne_of_gt hS)
  refine ⟨?_, getLoot_isSome count hw h0 h1 hS, ?_⟩
  · rw [getLoot_eq_of rand count hfil (ne_of_gt hS)]
    rw [firstGE, ← selectEntry_eq_find]
  · rw [firstGE, ← selectEntry_eq_find]
    exact selectEntry_boundary (adjustedEntries pool chestType rarityBoost) 0 k hk
      (by rw [cumulativeTotals_length]; exact hk)
      (adjustedEntries_nonneg chestType rarityBoost hw) hwk

/-- Witness for C1: the standard pool, normal chest, random value 1/2. -/
theorem c1_witness :
    (0 : ℚ) ≤ 1 / 2 ∧ (1 / 2 : ℚ) < 1
    ∧ (getLoot rarityPool ChestType.normal 1 (1 / 2) 0).1
        = firstGE (adjustedEntries rarityPool ChestType.normal 1)
            (1 / 2 * entriesSum (adjustedEntries rarityPool ChestType.normal 1)) :=
  ⟨by norm_num, by norm_num,
    (c1_weighted_selection rarityPool ChestType.normal 1 (1 / 2) 0 2
      (by norm_num [rarityPool])
      (by norm_num [adjustedEntries, filteredEntries, overriddenEntries, boostedEntries,
        CHEST_CONFIGS, rarityPool, entriesSum])
      (by norm_num) (by norm_num)
      (by norm_num [adjustedEntries, filteredEntries, overriddenEntries, boostedEntries,
        CHEST_CONFIGS, rarityPool])
      (by norm_num [adjustedEntries, filteredEntries, overriddenEntries, boostedEntries,
        CHEST_CONFIGS, rarityPool])).1⟩

/-- C6: a single draw never returns an entry excluded by the chest
configuration; every non-null result names some entry of the pool; and an
epic-chest draw never returns common, uncommon or rare. -/
theorem c6_exclusion_respected (pool : LootPool) (chestType : ChestType)
    (rarityBoost rand : ℚ) (count : ℕ) (n : String)
    (h : (getLoot pool chestType rarityBoost rand count).1 = some n) :
    ((CHEST_CONFIGS chestType).excludeRarities.contains n) = false
    ∧ n ∈ pool.entries.map (fun e => e.name)
    ∧ (chestType = ChestType.epic → n ≠ "common" ∧ n ≠ "uncommon" ∧ n ≠ "rare") := by
  have hmem : n ∈ (filteredEntries pool chestType).map (fun e => e.name) := by
    rw [getLoot] at h
    by_cases hp : pool.entries.length = 0
    · rw [if_pos hp] at h
      exact Option.noConfusion h
    · rw [if_neg hp] at h
      by_cases hf : (filteredEntries pool chestType).length = 0
      · rw [if_pos hf] at h
        exact Option.noConfusion h
      · rw [if_neg hf] at h
        by_cases hs : entriesSum (adjustedEntries pool chestType rarityBoost) = 0
        · simp only [hs, if_true] at h
          exact Option.noConfusion h
        · simp only [hs, if_false] at h
          rw [← adjustedEntries_names]
          exact selectEntry_mem h
  rcases List.mem_map.mp hmem with ⟨e, he, rfl⟩
  have hfe := List.mem_filter.mp he
  have hcont : ((CHEST_CONFIGS chestType).excludeRarities.contains e.name) = false := by
    have := hfe.2
    simpa using this
  refine ⟨hcont, List.mem_map_of_mem _ hfe.1, ?_⟩
  intro hct
  subst hct
  have hcont' : ((["common", "uncommon", "rare"] : List String).contains e.name) = false := hcont
  simp only [List.contains_cons, List.contains_nil, Bool.or_eq_false_iff, beq_eq_false_iff_ne,
    ne_eq] at hcont'
  exact ⟨hcont'.1, hcont'.2.1, hcont'.2.2.1⟩

/-- Witness for C6: an epic-chest draw on the standard pool at random value
0 returns "epic", which is not in the epic exclusion set. -/
theorem c6_witness :
    (getLoot rarityPool ChestType.epic 1 0 0).1 = some "epic"
    ∧ ((CHEST_CONFIGS ChestType.epic).excludeRarities.contains "epic") = false := by
  have hres : (getLoot rarityPool ChestType.epic 1 0 0).1 = some "epic" := by
    simp [getLoot, filteredEntries, adjustedEntries, overriddenEntries, boostedEntries,
      CHEST_CONFIGS, rarityPool, entriesSum, selectEntry, mathRound, RARE_PLUS_NAMES,
      List.lookup]
    norm_num
  exact ⟨hres, (c6_exclusion_respected rarityPool ChestType.epic 1 0 0 "epic" hres).1⟩

/-- C8: with nonnegative pool weights and a random value in [0, 1), a single
draw returns the silent empty result exactly when the exclusion filter
leaves no eligible entries or the adjusted weights sum to zero, and a batch
call's returned sequence is the none-free filterMap of its draw results. -/
theorem c8_silent_empty_results (pool : LootPool) (chestType : ChestType)
    (rarityBoost rand : ℚ) (count : ℕ) (options : LootsOptions) (randBase : ℚ)
    (rands : ℕ → ℚ) (c0 : ℕ) (l : List String) (c2 : ℕ)
    (hw : ∀ e ∈ pool.entries, 0 ≤ e.weight) (h0 : 0 ≤ rand) (h1 : rand < 1)
    (hok : getLoots pool options randBase rands c0 = Except.ok (l, c2)) :
    ((getLoot pool chestType rarityBoost rand count).1 = none
      ↔ (filteredEntries pool chestType = []
          ∨ entriesSum (adjustedEntries pool chestType rarityBoost) = 0))
    ∧ (l = ((runDraws pool options.chestType options.rarityBoost rands c0
              (plannedDraws options randBase).toNat).1).filterMap id
        ∨ (resolvedMaxRolls options ≤ 0 ∧ l = [])) := by
  constructor
  · constructor
    · intro hnone
      by_contra hcon
      push_neg at hcon
      have hSpos : 0 < entriesSum (adjustedEntries pool chestType rarityBoost) :=
        lt_of_le_of_ne (entriesSum_nonneg (adjustedEntries_nonneg chestType rarityBoost hw))
          (Ne.symm hcon.2)
      have hsome := getLoot_isSome count hw h0 h1 hSpos
      rw [hnone] at hsome
      simp at hsome
    · intro hcase
      rcases hcase with hfil | hsum
      · rw [getLoot]
        by_cases hp : pool.entries.length = 0
        · rw [if_pos hp]
        · rw [if_neg hp, if_pos (by rw [hfil]; rfl)]
      · rw [getLoot]
        by_cases hp : pool.entries.length = 0
        · rw [if_pos hp]
        · rw [if_neg hp]
          by_cases hf : (filteredEntries pool chestType).length = 0
          · rw [if_pos hf]
          · rw [if_neg hf]
            simp [hsum]
  · rcases getLoots_ok_shape hok with ⟨hm, hl, _⟩ | ⟨_, _, hl, _⟩
    · right
      exact ⟨hm, hl⟩
    · left
      exact hl

/-- Witness for C8: an epic-chest draw on a pool holding only a common
entry returns the silent empty result via the exclusion-filter case. -/
theorem c8_witness :
    (0 : ℚ) ≤ 0 ∧ (0 : ℚ) < 1
    ∧ ((getLoot commonOnlyPool ChestType.epic 1 0 0).1 = none
        ↔ (filteredEntries commonOnlyPool ChestType.epic = []
            ∨ entriesSum (adjustedEntries commonOnlyPool ChestType.epic 1) = 0)) :=
  ⟨le_refl 0, by norm_num,
    (c8_silent_empty_results commonOnlyPool ChestType.epic 1 0 0
      { max := some 1, chestType := ChestType.epic } 0 (fun _ => 0) 0 [] 0
      (by norm_num [commonOnlyPool]) (le_refl 0) (by norm_num)
      (by
        simp [getLoots, plannedDraws, resolvedMaxRolls, randomInt, mathRound,
          CHEST_CONFIGS, MAX_ROLL_COUNT]
        norm_num
        simp [runDraws_one, getLoot, filteredEntries, adjustedEntries, overriddenEntries,
          boostedEntries, CHEST_CONFIGS, commonOnlyPool, entriesSum, selectEntry,
          RARE_PLUS_NAMES, List.lookup])).1⟩

/-- C4 counterexample: a batch call that performs one single draw (the
planned draw count is 1) while leaving the roll counter unchanged at 0,
because the draw's entries are all excluded; so the counter does not
increase by the number of single draws the batch performs. -/
theorem c4_counterexample_draws_vs_results :
    getLoots commonOnlyPool { max := some 1, chestType := ChestType.epic } 0 (fun _ => 0) 0
        = Except.ok ([], 0)
    ∧ plannedDraws { max := some 1, chestType := ChestType.epic } 0 = 1 := by
  constructor
  · simp [getLoots, plannedDraws, resolvedMaxRolls, randomInt, mathRound,
      CHEST_CONFIGS, MAX_ROLL_COUNT]
    norm_num
    simp [runDraws_one, getLoot, filteredEntries, adjustedEntries, overriddenEntries,
      boostedEntries, CHEST_CONFIGS, commonOnlyPool, entriesSum, selectEntry,
      RARE_PLUS_NAMES, List.lookup]
  · simp [plannedDraws, resolvedMaxRolls, randomInt, mathRound, CHEST_CONFIGS]
    norm_num

/-- C4 amended: the roll counter increases by exactly 1 on every single draw
that returns a result and is unchanged by draws that return the empty
result; consequently a sequence of draws increases it by the number of
draws that return a result, and a batch call increases it by the number of
items the batch returns (the draws that returned a result), not by the
number of draws it performs. -/
theorem c4_amended_roll_counter (pool : LootPool) (chestType : ChestType)
    (rarityBoost rand : ℚ) (count m : ℕ) (options : LootsOptions) (randBase : ℚ)
    (rands : ℕ → ℚ) (c0 : ℕ) (l : List String) (c2 : ℕ)
    (hw : ∀ e ∈ pool.entries, 0 ≤ e.weight) (h0 : 0 ≤ rand) (h1 : rand < 1)
    (hr : ∀ i, 0 ≤ rands i ∧ rands i < 1)
    (hok : getLoots pool options randBase rands c0 = Except.ok (l, c2)) :
    (getLoot pool chestType rarityBoost rand count).2
        = count + (if ((getLoot pool chestType rarityBoost rand count).1).isSome then 1 else 0)
    ∧ (runDraws pool chestType rarityBoost rands count m).2
        = count + (((runDraws pool chestType rarityBoost rands count m).1).filterMap id).length
    ∧ c2 = c0 + l.length := by
  refine ⟨getLoot_count count hw h0 h1,
    runDraws_count pool chestType rarityBoost hw rands hr count m, ?_⟩
  rcases getLoots_ok_shape hok with ⟨_, hl, hc⟩ | ⟨_, _, hl, hc⟩
  · rw [hc, hl]
    simp
  · rw [hc, hl,
      runDraws_count pool options.chestType options.rarityBoost hw rands hr c0
        ((plannedDraws options randBase).toNat)]

/-- Witness for C4 at the standard pool with random value 1/2. -/
theorem c4_witness :
    (0 : ℚ) ≤ 1 / 2 ∧ (1 / 2 : ℚ) < 1
    ∧ (getLoot rarityPool ChestType.normal 1 (1 / 2) 0).2
        = 0 + (if ((getLoot rarityPool ChestType.normal 1 (1 / 2) 0).1).isSome then 1 else 0) :=
  ⟨by norm_num, by norm_num,
    (c4_amended_roll_counter rarityPool ChestType.normal 1 (1 / 2) 0 3 {} 0 (fun _ => 1 / 2)
      0 ["common"] 1 (by norm_num [rarityPool]) (by norm_num) (by norm_num)
      (fun _ => ⟨by norm_num, by norm_num⟩)
      (by
        simp [getLoots, plannedDraws, resolvedMaxRolls, randomInt, mathRound,
          CHEST_CONFIGS, MAX_ROLL_COUNT]
        norm_num
        simp [runDraws_one, getLoot, filteredEntries, adjustedEntries, overriddenEntries,
          boostedEntries, CHEST_CONFIGS, rarityPool, entriesSum, selectEntry,
          RARE_PLUS_NAMES, List.lookup, List.filterMap_cons]
        norm_num)).1⟩

/-- C5 counterexample: with multiplier -1 the computed array length is
negative and the batch call throws a RangeError instead of returning a
sequence, so the batch result is not defined for every multiplier. -/
theorem c5_counterexample_negative_multiplier :
    getLoots rarityPool { max := some 1, multiplier := -1 } 0 (fun _ => 0) 0
      = Except.error "RangeError: invalid array length" := by
  simp [getLoots, plannedDraws, resolvedMaxRolls, randomInt, mathRound, CHEST_CONFIGS,
    MAX_ROLL_COUNT]
  norm_num

/-- C5 amended: getLoots resolves maxRolls as options.max when provided and
the chest's maxRolls otherwise; for maxRolls at most 0 it returns the empty
sequence with the counter untouched; and for positive maxRolls, a random
value in [0, 1) and a nonnegative multiplier it draws baseCount uniformly
from [1, maxRolls] (baseCount = floor(randBase * maxRolls) + 1), performs
exactly min(round(baseCount * multiplier), maxRolls * 2) single draws, and
returns at most maxRolls * 2 items. -/
theorem c5_amended_batch_size (pool : LootPool) (options : LootsOptions) (randBase : ℚ)
    (rands : ℕ → ℚ) (count : ℕ)
    (h0 : 0 ≤ randBase) (h1 : randBase < 1) (hm : 0 ≤ options.multiplier) :
    (resolvedMaxRolls options ≤ 0 →
      getLoots pool options randBase rands count = Except.ok ([], count))
    ∧ (0 < resolvedMaxRolls options →
        (1 ≤ randomInt 1 (resolvedMaxRolls options : ℚ) randBase
          ∧ randomInt 1 (resolvedMaxRolls options : ℚ) randBase ≤ resolvedMaxRolls options)
        ∧ randomInt 1 (resolvedMaxRolls options : ℚ) randBase
            = ⌊randBase * (resolvedMaxRolls options : ℚ)⌋ + 1
        ∧ 0 ≤ plannedDraws options randBase
        ∧ plannedDraws options randBase ≤ resolvedMaxRolls options * 2
        ∧ getLoots pool options randBase rands count
            = Except.ok
                (((runDraws pool options.chestType options.rarityBoost rands count
                    (plannedDraws options randBase).toNat).1).filterMap id,
                 (runDraws pool options.chestType options.rarityBoost rands count
                    (plannedDraws options randBase).toNat).2)
        ∧ ((runDraws pool options.chestType options.rarityBoost rands count
              (plannedDraws options randBase).toNat).1).length
            = (plannedDraws options randBase).toNat
        ∧ (((runDraws pool options.chestType options.rarityBoost rands count
              (plannedDraws options randBase).toNat).1).filterMap id).length
            ≤ (resolvedMaxRolls options * 2).toNat) := by
  constructor
  · intro hle
    rw [getLoots, if_pos hle]
  · intro hpos
    have hb := randomInt_one_bounds (resolvedMaxRolls options) randBase hpos h0 h1
    have hbc0 : (0 : ℚ) ≤ ((randomInt 1 (resolvedMaxRolls options : ℚ) randBase : ℤ) : ℚ) := by
      have h1b := hb.1
      exact_mod_cast le_trans (by norm_num : (0 : ℤ) ≤ 1) h1b
    have hplan0 : 0 ≤ plannedDraws options randBase := by
      rw [plannedDraws]
      apply le_min
      · exact mathRound_nonneg (mul_nonneg hbc0 hm)
      · linarith
    have hplanle : plannedDraws options randBase ≤ resolvedMaxRolls options * 2 :=
      min_le_right _ _
    have hgl : getLoots pool options randBase rands count
        = Except.ok
            (((runDraws pool options.chestType options.rarityBoost rands count
                (plannedDraws options randBase).toNat).1).filterMap id,
             (runDraws pool options.chestType options.rarityBoost rands count
                (plannedDraws options randBase).toNat).2) := by
      simp only [getLoots]
      rw [if_neg (not_le.mpr hpos), if_neg (not_lt.mpr hplan0)]
    refine ⟨hb, randomInt_one_int _ _, hplan0, hplanle, hgl,
      runDraws_length pool options.chestType options.rarityBoost rands count _, ?_⟩
    calc (((runDraws pool options.chestType options.rarityBoost rands count
            (plannedDraws options randBase).toNat).1).filterMap id).length
        ≤ ((runDraws pool options.chestType options.rarityBoost rands count
            (plannedDraws options randBase).toNat).1).length :=
          List.length_filterMap_le id _
      _ = (plannedDraws options randBase).toNat :=
          runDraws_length pool options.chestType options.rarityBoost rands count _
      _ ≤ (resolvedMaxRolls options * 2).toNat := Int.toNat_le_toNat hplanle

/-- Witness for C5 at the default options and random value 1/2. -/
theorem c5_witness :
    (0 : ℚ) ≤ 1 / 2 ∧ (1 / 2 : ℚ) < 1 ∧ 0 ≤ plannedDraws {} (1 / 2) :=
  ⟨by norm_num, by norm_num,
    ((c5_amended_batch_size rarityPool {} (1 / 2) (fun _ => 0) 0 (by norm_num) (by norm_num)
      zero_le_one).2 (by decide)).2.2.1⟩

end PixelDrop
